import Mathlib

/-!
Shallow embedding of `src/pool.py` (class `Pool`): a concurrent, bounded
experience-replay buffer with per-worker segments.

Modelling conventions:
* Each numpy pool attribute (`state_pool_list`, ..., `done_pool_list`) is a
  Python manager list whose entries are either `None` or a numpy array of
  samples; we model each entry as `Option (List a)` with one list element per
  sample row (the driver always passes batches of one row, produced by
  `np.expand_dims(..., axis=0)`).
* Python exceptions (IndexError on a missing list entry, AttributeError on a
  missing attribute, TypeError and ValueError from numpy, ZeroDivisionError)
  are modelled by an error-carrying state monad `M`: the state returned on an
  error is the state at the moment the exception is raised, since the manager
  lists keep all mutations performed before the exception.
* `pool` (the append + eviction operation) is split into the three phases the
  source performs in order: the append block (lines 27-38), the periodic
  clearing block (lines 39-46) and the capacity block (lines 47-59).
-/

namespace Pool

/-- Python exceptions that the translated code can raise. -/
inductive PErr where
  | indexError
  | attributeError
  | typeError
  | valueError
  | zeroDivisionError
deriving DecidableEq, Repr

/-- The five parallel sample fields of a segment. -/
inductive Field where
  | state
  | action
  | next_state
  | reward
  | done
deriving DecidableEq, Repr

/-- Constructor arguments of `Pool.__init__` that the buffer logic reads. -/
structure Config where
  processes : Nat
  pool_size : Nat
  window_size : Option Nat
  clearing_freq : Option Nat
  window_size_ : Option Nat
  random : Bool
deriving DecidableEq, Repr

/-- The mutable state of a `Pool` object: the five per-field manager lists
(one `Option (List a)` entry per written segment), the occupancy vector
`inverse_len` and the `store_counter` list. -/
structure State (a : Type) where
  state_pool_list : List (Option (List a))
  action_pool_list : List (Option (List a))
  next_state_pool_list : List (Option (List a))
  reward_pool_list : List (Option (List a))
  done_pool_list : List (Option (List a))
  inverse_len : List Rat
  store_counter : List Nat
deriving DecidableEq, Repr

variable {a : Type}

/-- `Pool.__init__`: the five pool lists are created as empty manager lists
(no per-index seeding), `inverse_len` is seeded with `processes` zeros, and
`store_counter` is also created empty (the source only creates it when
`clearing_freq` is not `None`; it never receives initial entries either way). -/
def initState (processes : Nat) : State a :=
  { state_pool_list := []
    action_pool_list := []
    next_state_pool_list := []
    reward_pool_list := []
    done_pool_list := []
    inverse_len := List.replicate processes 0
    store_counter := [] }

/-- Read one of the five pool lists by field tag. -/
def fieldList : Field → State a → List (Option (List a))
  | Field.state, ps => ps.state_pool_list
  | Field.action, ps => ps.action_pool_list
  | Field.next_state, ps => ps.next_state_pool_list
  | Field.reward, ps => ps.reward_pool_list
  | Field.done, ps => ps.done_pool_list

/-- Replace one of the five pool lists by field tag. -/
def setFieldList : Field → State a → List (Option (List a)) → State a
  | Field.state, ps, l => { ps with state_pool_list := l }
  | Field.action, ps, l => { ps with action_pool_list := l }
  | Field.next_state, ps, l => { ps with next_state_pool_list := l }
  | Field.reward, ps, l => { ps with reward_pool_list := l }
  | Field.done, ps, l => { ps with done_pool_list := l }

/-- State-and-error monad: a computation mutates the `Pool` state and either
returns a value or stops at a Python exception, keeping the mutations made
so far. -/
def M (s : Type) (b : Type) : Type := s → s × Except PErr b

instance {s : Type} : Monad (M s) where
  pure x := fun st => (st, Except.ok x)
  bind x g := fun st =>
    match x st with
    | (st', Except.ok b) => g b st'
    | (st', Except.error e) => (st', Except.error e)

/-- Raise a Python exception, keeping the current state. -/
def M.throw {s b : Type} (e : PErr) : M s b := fun st => (st, Except.error e)

theorem M.bind_apply {s b c : Type} (x : M s b) (g : b → M s c) (st : s) :
    (x >>= g) st =
      match x st with
      | (st', Except.ok v) => g v st'
      | (st', Except.error e) => (st', Except.error e) := rfl

theorem M.pure_apply {s b : Type} (v : b) (st : s) :
    (pure v : M s b) st = (st, Except.ok v) := rfl

theorem M.throw_apply {s b : Type} (e : PErr) (st : s) :
    (M.throw e : M s b) st = (st, Except.error e) := rfl

/-- `self.<field>_pool_list[index]`: reading a manager-list entry; raises
IndexError when the entry does not exist. -/
def getFieldEntry (f : Field) (i : Nat) : M (State a) (Option (List a)) :=
  fun ps =>
    match (fieldList f ps)[i]? with
    | some v => (ps, Except.ok v)
    | none => (ps, Except.error PErr.indexError)

/-- `self.<field>_pool_list[index] = v`: writing a manager-list entry; raises
IndexError when the entry does not exist. -/
def putFieldEntry (f : Field) (i : Nat) (v : Option (List a)) : M (State a) Unit :=
  fun ps =>
    if i < (fieldList f ps).length then
      (setFieldList f ps ((fieldList f ps).set i v), Except.ok ())
    else (ps, Except.error PErr.indexError)

/-- `self.store_counter[index]`: reading a counter entry. -/
def readCounter (i : Nat) : M (State a) Nat :=
  fun ps =>
    match ps.store_counter[i]? with
    | some c => (ps, Except.ok c)
    | none => (ps, Except.error PErr.indexError)

/-- `self.store_counter[index] = c`. -/
def putCounter (i : Nat) (c : Nat) : M (State a) Unit :=
  fun ps =>
    if i < ps.store_counter.length then
      ({ ps with store_counter := ps.store_counter.set i c }, Except.ok ())
    else (ps, Except.error PErr.indexError)

/-- `self.inverse_len[index] = q`. -/
def putInvLen (i : Nat) (q : Rat) : M (State a) Unit :=
  fun ps =>
    if i < ps.inverse_len.length then
      ({ ps with inverse_len := ps.inverse_len.set i q }, Except.ok ())
    else (ps, Except.error PErr.indexError)

/-- One concatenation line of the else-branch of `pool` for a non-state field:
`self.<f>_pool_list[index] = np.concatenate((self.<f>_pool_list[index], row), 0)`.
If the stored entry is `None`, numpy raises (ValueError) on concatenating it. -/
def appendTo (f : Field) (x : a) (i : Nat) : M (State a) Unit := do
  let e ← getFieldEntry f i
  match e with
  | none => M.throw PErr.valueError
  | some l => putFieldEntry f i (some (l ++ [x]))

/-- Lines 27-38 of `pool`: the append block. `s` is the single sample row the
driver passes (already a one-row batch in the source). If the segment entry is
`None`, each field is set to a one-element sequence; otherwise each field gets
the new row concatenated at the end — except that the line for the done field
reads `self.done_pool[7]`, and the attribute `done_pool` is never defined on
the class, so that line raises AttributeError after the first four fields have
already been reassigned. -/
def appendPhase (s act ns r d : a) (i : Nat) : M (State a) Unit := do
  let entry ← getFieldEntry Field.state i
  match entry with
  | none =>
    putFieldEntry Field.state i (some [s])
    putFieldEntry Field.action i (some [act])
    putFieldEntry Field.next_state i (some [ns])
    putFieldEntry Field.reward i (some [r])
    putFieldEntry Field.done i (some [d])
  | some st =>
    putFieldEntry Field.state i (some (st ++ [s]))
    appendTo Field.action act i
    appendTo Field.next_state ns i
    appendTo Field.reward r i
    M.throw PErr.attributeError

/-- One slicing line `self.<f>_pool_list[index] = self.<f>_pool_list[index][k:]`.
Python list slicing drops the first `min(k, len)` elements; slicing `None`
raises TypeError. -/
def dropField (k : Nat) (f : Field) (i : Nat) : M (State a) Unit := do
  let e ← getFieldEntry f i
  match e with
  | none => M.throw PErr.typeError
  | some l => putFieldEntry f i (some (l.drop k))

/-- The five slicing lines applied to the five fields in source order. -/
def dropAll (k : Nat) (i : Nat) : M (State a) Unit := do
  dropField k Field.state i
  dropField k Field.action i
  dropField k Field.next_state i
  dropField k Field.reward i
  dropField k Field.done i

/-- Lines 39-46 of `pool`: the periodic clearing block. Runs only when
`clearing_freq` is configured: increments the store counter for `index`, and
when the new value is a multiple of `clearing_freq`, slices the oldest
`window_size_` entries off every field (slicing with `None` as the bound,
when `window_size_` is not configured, drops nothing, hence `getD 0`).
A `clearing_freq` of zero makes the modulo raise ZeroDivisionError. -/
def clearingPhase (cfg : Config) (i : Nat) : M (State a) Unit := do
  match cfg.clearing_freq with
  | none => pure ()
  | some freq =>
    let c ← readCounter i
    putCounter i (c + 1)
    if freq = 0 then M.throw PErr.zeroDivisionError
    else if (c + 1) % freq = 0 then dropAll (cfg.window_size_.getD 0) i
    else pure ()

/-- `math.ceil(pool_size / processes)` on natural numbers (the source divides
two ints; `processes = 0` raises ZeroDivisionError, checked by the caller). -/
def ceilDiv (x y : Nat) : Nat := (x + y - 1) / y

/-- Lines 47-59 of `pool`: the capacity block. If the segment is longer than
`ceil(pool_size / processes)`, slice the oldest `window_size` entries off every
field when `window_size` is configured, otherwise the single oldest entry. -/
def capacityPhase (cfg : Config) (i : Nat) : M (State a) Unit := do
  if cfg.processes = 0 then M.throw PErr.zeroDivisionError
  else
    let e ← getFieldEntry Field.state i
    match e with
    | none => M.throw PErr.typeError
    | some st =>
      if st.length > ceilDiv cfg.pool_size cfg.processes then
        match cfg.window_size with
        | some w => dropAll w i
        | none => dropAll 1 i
      else pure ()

/-- `Pool.pool(self, s, a, next_s, r, done, index)`: append block, then
periodic clearing, then capacity enforcement, in source order. -/
def poolOp (cfg : Config) (s act ns r d : a) (i : Nat) : M (State a) Unit := do
  appendPhase s act ns r d i
  clearingPhase cfg i
  capacityPhase cfg i

/-- Lines 65-75 of `store_in_parallel`: target-segment selection. With
`random` false the worker uses its own index `p`. With `random` true: if the
own segment of the worker is unset, it claims index `p` and writes weight 1 into
`inverse_len[p]`; otherwise the source computes
`prob = self.inverse_len / total_inverse` (a numpy ndarray) and then calls
`np.random.choice(self.processes, p=prob.numpy())` — a numpy ndarray has no
`.numpy()` method, so this line raises AttributeError before any draw. -/
def selectIndex (cfg : Config) (p : Nat) : M (State a) Nat := do
  if cfg.random then
    let e ← getFieldEntry Field.state p
    match e with
    | none =>
      putInvLen p 1
      pure p
    | some _ => M.throw PErr.attributeError
  else pure p

/-- `np.concatenate` over one manager list: raises ValueError on an empty
sequence and on a `None` member; otherwise concatenates the per-segment
arrays in list order. -/
def npConcat : List (Option (List a)) → Except PErr (List a)
  | [] => Except.error PErr.valueError
  | [some xs] => Except.ok xs
  | some xs :: rest =>
    match npConcat rest with
    | Except.ok r => Except.ok (xs ++ r)
    | Except.error e => Except.error e
  | none :: _ => Except.error PErr.valueError

/-- `Pool.get_pool`: concatenate each of the five pool lists. -/
def get_pool (ps : State a) :
    Except PErr (List a × List a × List a × List a × List a) := do
  let sp ← npConcat ps.state_pool_list
  let ap ← npConcat ps.action_pool_list
  let np ← npConcat ps.next_state_pool_list
  let rp ← npConcat ps.reward_pool_list
  let dp ← npConcat ps.done_pool_list
  pure (sp, ap, np, rp, dp)

/-! Concrete configurations and states used by the evaluation theorems. -/

/-- Deterministic single-worker configuration with a large capacity. -/
def cfg1 : Config := ⟨1, 10, none, none, none, false⟩

/-- A well-formed single-worker state whose only segment holds one sample. -/
def ex1 : State Nat :=
  ⟨[some [5]], [some [6]], [some [7]], [some [8]], [some [9]], [1], [0]⟩

/-- Deterministic two-worker configuration with a large capacity. -/
def cfg3 : Config := ⟨2, 10, none, none, none, false⟩

/-- Single-worker configuration with periodic clearing every 2 appends. -/
def cfg4 : Config := ⟨1, 100, none, some 2, some 1, false⟩

/-- A well-formed state with one one-sample segment and store counter 1. -/
def ex4 : State Nat :=
  ⟨[some [21]], [some [22]], [some [23]], [some [24]], [some [25]], [1], [1]⟩

/-- The configuration of the capacity example scenario of the spec:
two workers, total pool size 4, no window, deterministic mode. -/
def cfg5 : Config := ⟨2, 4, none, none, none, false⟩

/-- A well-formed fresh two-worker state: both segments unset, counters 0. -/
def ps0 : State Nat :=
  ⟨[none, none], [none, none], [none, none], [none, none], [none, none],
   [0, 0], [0, 0]⟩

/-- Two-worker configuration in probabilistic mode. -/
def cfg8 : Config := ⟨2, 10, none, none, none, true⟩

/-- A well-formed two-worker state with both segments already written. -/
def ex8 : State Nat :=
  ⟨[some [1], some [2]], [some [1], some [2]], [some [1], some [2]],
   [some [1], some [2]], [some [1], some [2]], [(1 : Rat)/2, (1 : Rat)/2], [0, 0]⟩

/-- A well-formed two-worker state where segment 1 is still unset. -/
def ex8b : State Nat :=
  ⟨[some [1], none], [some [1], none], [some [1], none], [some [1], none],
   [some [1], none], [(1 : Rat)/2, 0], [0, 0]⟩

/-! ### Helper lemmas about lists, the record fields and the monad -/

theorem lt_length_of_getq {b : Type} (l : List b) (i : Nat) (v : b)
    (h : l[i]? = some v) : i < l.length := by
  by_contra hc
  push_neg at hc
  rw [List.getElem?_eq_none hc] at h
  cases h

theorem getq_set_self {b : Type} (l : List b) (i : Nat) (v : b)
    (h : i < l.length) : (l.set i v)[i]? = some v := by
  simp [List.getElem?_set_self', h]

theorem getq_append_lt {b : Type} (l r : List b) (n : Nat) (h : n < l.length) :
    (l ++ r)[n]? = l[n]? := by
  rw [List.getElem?_append]
  simp [h]

theorem getq_append_offset {b : Type} (l r : List b) (n : Nat) :
    (l ++ r)[l.length + n]? = r[n]? := by
  rw [List.getElem?_append_right (by omega)]
  simp

theorem fieldList_setFieldList (f g : Field) (ps : State a)
    (l : List (Option (List a))) :
    fieldList g (setFieldList f ps l) = if g = f then l else fieldList g ps := by
  cases f <;> cases g <;> simp [fieldList, setFieldList]

theorem store_counter_setFieldList (f : Field) (ps : State a)
    (l : List (Option (List a))) :
    (setFieldList f ps l).store_counter = ps.store_counter := by
  cases f <;> rfl

theorem inverse_len_setFieldList (f : Field) (ps : State a)
    (l : List (Option (List a))) :
    (setFieldList f ps l).inverse_len = ps.inverse_len := by
  cases f <;> rfl

theorem fieldList_withCounter (f : Field) (ps : State a) (l : List Nat) :
    fieldList f { ps with store_counter := l } = fieldList f ps := by
  cases f <;> rfl

/-! ### Frame relation: mutations stay on one segment index -/

/-- Between two pool states, every pool-list entry away from index `i`, every
counter entry away from index `i`, and the whole occupancy vector agree. -/
def Unmoved (i : Nat) (ps ps' : State a) : Prop :=
  (∀ (f : Field) (j : Nat), j ≠ i →
      (fieldList f ps')[j]? = (fieldList f ps)[j]?) ∧
  (∀ j : Nat, j ≠ i → ps'.store_counter[j]? = ps.store_counter[j]?) ∧
  ps'.inverse_len = ps.inverse_len

theorem unmoved_refl (i : Nat) (ps : State a) : Unmoved i ps ps :=
  ⟨fun _ _ _ => rfl, fun _ _ => rfl, rfl⟩

theorem unmoved_trans {i : Nat} {p q r : State a}
    (h1 : Unmoved i p q) (h2 : Unmoved i q r) : Unmoved i p r :=
  ⟨fun f j hj => (h2.1 f j hj).trans (h1.1 f j hj),
   fun j hj => (h2.2.1 j hj).trans (h1.2.1 j hj),
   h2.2.2.trans h1.2.2⟩

/-! ### Suffix relation: all truncations drop only the oldest entries -/

/-- Between two pool states: every written pool entry of the second state is a
suffix of the corresponding entry of the first state, that is, it arises by
removing some number of oldest (lowest-index) elements while the surviving
elements keep their relative order. -/
def SuffixStep (ps ps' : State a) : Prop :=
  ∀ (f : Field) (j : Nat) (l' : List a),
    (fieldList f ps')[j]? = some (some l') →
    ∃ (l : List a) (n : Nat),
      (fieldList f ps)[j]? = some (some l) ∧ l' = l.drop n ∧ l = l.take n ++ l'

theorem suffixStep_refl (ps : State a) : SuffixStep ps ps := by
  intro f j l' h
  exact ⟨l', 0, h, by simp, by simp⟩

theorem suffixStep_trans {p q r : State a}
    (h1 : SuffixStep p q) (h2 : SuffixStep q r) : SuffixStep p r := by
  intro f j l2 h
  obtain ⟨l1, m, hq, hdrop2, -⟩ := h2 f j l2 h
  obtain ⟨l0, n, hp, hdrop1, -⟩ := h1 f j l1 hq
  have hd : l2 = List.drop (n + m) l0 := by
    rw [hdrop2, hdrop1]
    exact List.drop_drop m n l0
  refine ⟨l0, n + m, hp, hd, ?_⟩
  rw [hd]
  exact (List.take_append_drop (n + m) l0).symm

/-! ### A preservation framework for the state monad -/

/-- A computation preserves relation `R` from every start state to the state
it ends in, whether it returns normally or raises. -/
def Preserves (R : State a → State a → Prop) {b : Type} (m : M (State a) b) : Prop :=
  ∀ ps, R ps ((m ps).1)

theorem Preserves.bind (R : State a → State a → Prop) {b c : Type}
    (htrans : ∀ p q r : State a, R p q → R q r → R p r)
    {x : M (State a) b} {g : b → M (State a) c}
    (hx : Preserves R x) (hg : ∀ v, Preserves R (g v)) :
    Preserves R (x >>= g) := by
  intro ps
  rw [M.bind_apply]
  rcases hx' : x ps with ⟨ps', rv⟩
  have h1 : R ps ps' := by
    have := hx ps
    rw [hx'] at this
    exact this
  cases rv with
  | ok v => exact htrans _ _ _ h1 (hg v ps')
  | error e => exact h1

/-- Computations that never change the state. -/
def KeepsState {b : Type} (m : M (State a) b) : Prop := ∀ ps, ((m ps).1) = ps

theorem KeepsState.preserves {b : Type} {m : M (State a) b} (h : KeepsState m)
    (R : State a → State a → Prop) (hrefl : ∀ ps, R ps ps) : Preserves R m := by
  intro ps
  rw [h ps]
  exact hrefl ps

theorem getFieldEntry_keeps (f : Field) (i : Nat) :
    KeepsState (getFieldEntry (a := a) f i) := by
  intro ps
  cases h : (fieldList f ps)[i]? <;> simp [getFieldEntry, h]

theorem readCounter_keeps (i : Nat) : KeepsState (readCounter (a := a) i) := by
  intro ps
  cases h : ps.store_counter[i]? <;> simp [readCounter, h]

theorem throw_keeps {b : Type} (e : PErr) :
    KeepsState (M.throw e : M (State a) b) := fun _ => rfl

theorem pure_keeps {b : Type} (v : b) :
    KeepsState (pure v : M (State a) b) := fun _ => rfl

theorem putFieldEntry_unmoved (f : Field) (i : Nat) (v : Option (List a)) :
    Preserves (Unmoved i) (putFieldEntry f i v) := by
  intro ps
  unfold putFieldEntry
  by_cases h : i < (fieldList f ps).length
  · rw [if_pos h]
    show Unmoved i ps (setFieldList f ps ((fieldList f ps).set i v))
    refine ⟨?_, ?_, ?_⟩
    · intro g j hj
      rw [fieldList_setFieldList]
      by_cases hgf : g = f
      · subst hgf
        rw [if_pos rfl]
        exact List.getElem?_set_ne fun hh => hj hh.symm
      · rw [if_neg hgf]
    · intro j hj
      rw [store_counter_setFieldList]
    · rw [inverse_len_setFieldList]
  · rw [if_neg h]
    exact unmoved_refl i ps

theorem putCounter_unmoved (i c : Nat) :
    Preserves (Unmoved i) (putCounter (a := a) i c) := by
  intro ps
  unfold putCounter
  by_cases h : i < ps.store_counter.length
  · rw [if_pos h]
    show Unmoved i ps { ps with store_counter := ps.store_counter.set i c }
    refine ⟨?_, ?_, rfl⟩
    · intro g j hj
      rw [fieldList_withCounter]
    · intro j hj
      exact List.getElem?_set_ne fun hh => hj hh.symm
  · rw [if_neg h]
    exact unmoved_refl i ps

theorem appendTo_unmoved (f : Field) (x : a) (i : Nat) :
    Preserves (Unmoved i) (appendTo f x i) := by
  unfold appendTo
  refine Preserves.bind (Unmoved i) (fun _ _ _ h1 h2 => unmoved_trans h1 h2)
    ((getFieldEntry_keeps f i).preserves (Unmoved i) (unmoved_refl i)) ?_
  intro e
  cases e with
  | none => exact (throw_keeps _).preserves (Unmoved i) (unmoved_refl i)
  | some l => exact putFieldEntry_unmoved f i (some (l ++ [x]))

theorem dropField_unmoved (k : Nat) (f : Field) (i : Nat) :
    Preserves (Unmoved i) (dropField (a := a) k f i) := by
  unfold dropField
  refine Preserves.bind (Unmoved i) (fun _ _ _ h1 h2 => unmoved_trans h1 h2)
    ((getFieldEntry_keeps f i).preserves (Unmoved i) (unmoved_refl i)) ?_
  intro e
  cases e with
  | none => exact (throw_keeps _).preserves (Unmoved i) (unmoved_refl i)
  | some l => exact putFieldEntry_unmoved f i (some (l.drop k))

theorem dropAll_unmoved (k i : Nat) :
    Preserves (Unmoved i) (dropAll (a := a) k i) := by
  unfold dropAll
  refine Preserves.bind (Unmoved i) (fun _ _ _ h1 h2 => unmoved_trans h1 h2)
    (dropField_unmoved k Field.state i) fun _ => ?_
  refine Preserves.bind (Unmoved i) (fun _ _ _ h1 h2 => unmoved_trans h1 h2)
    (dropField_unmoved k Field.action i) fun _ => ?_
  refine Preserves.bind (Unmoved i) (fun _ _ _ h1 h2 => unmoved_trans h1 h2)
    (dropField_unmoved k Field.next_state i) fun _ => ?_
  refine Preserves.bind (Unmoved i) (fun _ _ _ h1 h2 => unmoved_trans h1 h2)
    (dropField_unmoved k Field.reward i) fun _ => ?_
  exact dropField_unmoved k Field.done i

theorem appendPhase_unmoved (s act ns r d : a) (i : Nat) :
    Preserves (Unmoved i) (appendPhase s act ns r d i) := by
  unfold appendPhase
  refine Preserves.bind (Unmoved i) (fun _ _ _ h1 h2 => unmoved_trans h1 h2)
    ((getFieldEntry_keeps Field.state i).preserves (Unmoved i) (unmoved_refl i)) ?_
  intro entry
  cases entry with
  | none =>
    refine Preserves.bind (Unmoved i) (fun _ _ _ h1 h2 => unmoved_trans h1 h2)
      (putFieldEntry_unmoved Field.state i (some [s])) fun _ => ?_
    refine Preserves.bind (Unmoved i) (fun _ _ _ h1 h2 => unmoved_trans h1 h2)
      (putFieldEntry_unmoved Field.action i (some [act])) fun _ => ?_
    refine Preserves.bind (Unmoved i) (fun _ _ _ h1 h2 => unmoved_trans h1 h2)
      (putFieldEntry_unmoved Field.next_state i (some [ns])) fun _ => ?_
    refine Preserves.bind (Unmoved i) (fun _ _ _ h1 h2 => unmoved_trans h1 h2)
      (putFieldEntry_unmoved Field.reward i (some [r])) fun _ => ?_
    exact putFieldEntry_unmoved Field.done i (some [d])
  | some st =>
    refine Preserves.bind (Unmoved i) (fun _ _ _ h1 h2 => unmoved_trans h1 h2)
      (putFieldEntry_unmoved Field.state i (some (st ++ [s]))) fun _ => ?_
    refine Preserves.bind (Unmoved i) (fun _ _ _ h1 h2 => unmoved_trans h1 h2)
      (appendTo_unmoved Field.action act i) fun _ => ?_
    refine Preserves.bind (Unmoved i) (fun _ _ _ h1 h2 => unmoved_trans h1 h2)
      (appendTo_unmoved Field.next_state ns i) fun _ => ?_
    refine Preserves.bind (Unmoved i) (fun _ _ _ h1 h2 => unmoved_trans h1 h2)
      (appendTo_unmoved Field.reward r i) fun _ => ?_
    exact (throw_keeps _).preserves (Unmoved i) (unmoved_refl i)

theorem clearingPhase_unmoved (cfg : Config) (i : Nat) :
    Preserves (Unmoved i) (clearingPhase (a := a) cfg i) := by
  unfold clearingPhase
  cases cfg.clearing_freq with
  | none => exact (pure_keeps ()).preserves (Unmoved i) (unmoved_refl i)
  | some freq =>
    refine Preserves.bind (Unmoved i) (fun _ _ _ h1 h2 => unmoved_trans h1 h2)
      ((readCounter_keeps i).preserves (Unmoved i) (unmoved_refl i)) ?_
    intro c
    refine Preserves.bind (Unmoved i) (fun _ _ _ h1 h2 => unmoved_trans h1 h2)
      (putCounter_unmoved i (c + 1)) fun _ => ?_
    by_cases hf : freq = 0
    · rw [if_pos hf]
      exact (throw_keeps _).preserves (Unmoved i) (unmoved_refl i)
    · rw [if_neg hf]
      by_cases hm : (c + 1) % freq = 0
      · rw [if_pos hm]
        exact dropAll_unmoved _ i
      · rw [if_neg hm]
        exact (pure_keeps ()).preserves (Unmoved i) (unmoved_refl i)

theorem capacityPhase_unmoved (cfg : Config) (i : Nat) :
    Preserves (Unmoved i) (capacityPhase (a := a) cfg i) := by
  unfold capacityPhase
  by_cases hp : cfg.processes = 0
  · rw [if_pos hp]
    exact (throw_keeps _).preserves (Unmoved i) (unmoved_refl i)
  · rw [if_neg hp]
    refine Preserves.bind (Unmoved i) (fun _ _ _ h1 h2 => unmoved_trans h1 h2)
      ((getFieldEntry_keeps Field.state i).preserves (Unmoved i) (unmoved_refl i)) ?_
    intro e
    cases e with
    | none => exact (throw_keeps _).preserves (Unmoved i) (unmoved_refl i)
    | some st =>
      dsimp only
      by_cases hl : st.length > ceilDiv cfg.pool_size cfg.processes
      · rw [if_pos hl]
        cases cfg.window_size with
        | some w => exact dropAll_unmoved w i
        | none => exact dropAll_unmoved 1 i
      · rw [if_neg hl]
        exact (pure_keeps ()).preserves (Unmoved i) (unmoved_refl i)

theorem poolOp_unmoved (cfg : Config) (s act ns r d : a) (i : Nat) :
    Preserves (Unmoved i) (poolOp cfg s act ns r d i) := by
  unfold poolOp
  refine Preserves.bind (Unmoved i) (fun _ _ _ h1 h2 => unmoved_trans h1 h2)
    (appendPhase_unmoved s act ns r d i) fun _ => ?_
  refine Preserves.bind (Unmoved i) (fun _ _ _ h1 h2 => unmoved_trans h1 h2)
    (clearingPhase_unmoved cfg i) fun _ => ?_
  exact capacityPhase_unmoved cfg i

theorem putCounter_suffix (i c : Nat) :
    Preserves SuffixStep (putCounter (a := a) i c) := by
  intro ps
  unfold putCounter
  by_cases h : i < ps.store_counter.length
  · rw [if_pos h]
    show SuffixStep ps { ps with store_counter := ps.store_counter.set i c }
    intro f j l' hj
    rw [fieldList_withCounter] at hj
    exact ⟨l', 0, hj, by simp, by simp⟩
  · rw [if_neg h]
    exact suffixStep_refl ps

theorem dropField_suffix (k : Nat) (f : Field) (i : Nat) :
    Preserves SuffixStep (dropField (a := a) k f i) := by
  intro ps
  unfold dropField
  rw [M.bind_apply]
  cases hv : (fieldList f ps)[i]? with
  | none =>
    simp only [getFieldEntry, hv]
    exact suffixStep_refl ps
  | some e =>
    cases e with
    | none =>
      simp only [getFieldEntry, hv]
      exact suffixStep_refl ps
    | some l =>
      simp only [getFieldEntry, hv]
      have hlen : i < (fieldList f ps).length := lt_length_of_getq _ _ _ hv
      unfold putFieldEntry
      rw [if_pos hlen]
      show SuffixStep ps (setFieldList f ps ((fieldList f ps).set i (some (l.drop k))))
      intro g j l' hj
      rw [fieldList_setFieldList] at hj
      by_cases hgf : g = f
      · subst hgf
        rw [if_pos rfl] at hj
        by_cases hji : j = i
        · subst hji
          rw [getq_set_self _ _ _ hlen] at hj
          injection hj with hj1
          injection hj1 with hj2
          subst hj2
          exact ⟨l, k, hv, rfl, (List.take_append_drop k l).symm⟩
        · rw [List.getElem?_set_ne fun hh => hji hh.symm] at hj
          exact ⟨l', 0, hj, by simp, by simp⟩
      · rw [if_neg hgf] at hj
        exact ⟨l', 0, hj, by simp, by simp⟩

theorem dropAll_suffix (k i : Nat) :
    Preserves SuffixStep (dropAll (a := a) k i) := by
  unfold dropAll
  refine Preserves.bind SuffixStep (fun _ _ _ h1 h2 => suffixStep_trans h1 h2)
    (dropField_suffix k Field.state i) fun _ => ?_
  refine Preserves.bind SuffixStep (fun _ _ _ h1 h2 => suffixStep_trans h1 h2)
    (dropField_suffix k Field.action i) fun _ => ?_
  refine Preserves.bind SuffixStep (fun _ _ _ h1 h2 => suffixStep_trans h1 h2)
    (dropField_suffix k Field.next_state i) fun _ => ?_
  refine Preserves.bind SuffixStep (fun _ _ _ h1 h2 => suffixStep_trans h1 h2)
    (dropField_suffix k Field.reward i) fun _ => ?_
  exact dropField_suffix k Field.done i

theorem clearingPhase_suffix (cfg : Config) (i : Nat) :
    Preserves SuffixStep (clearingPhase (a := a) cfg i) := by
  unfold clearingPhase
  cases cfg.clearing_freq with
  | none => exact (pure_keeps ()).preserves SuffixStep suffixStep_refl
  | some freq =>
    refine Preserves.bind SuffixStep (fun _ _ _ h1 h2 => suffixStep_trans h1 h2)
      ((readCounter_keeps i).preserves SuffixStep suffixStep_refl) ?_
    intro c
    refine Preserves.bind SuffixStep (fun _ _ _ h1 h2 => suffixStep_trans h1 h2)
      (putCounter_suffix i (c + 1)) fun _ => ?_
    by_cases hf : freq = 0
    · rw [if_pos hf]
      exact (throw_keeps _).preserves SuffixStep suffixStep_refl
    · rw [if_neg hf]
      by_cases hm : (c + 1) % freq = 0
      · rw [if_pos hm]
        exact dropAll_suffix _ i
      · rw [if_neg hm]
        exact (pure_keeps ()).preserves SuffixStep suffixStep_refl

theorem capacityPhase_suffix (cfg : Config) (i : Nat) :
    Preserves SuffixStep (capacityPhase (a := a) cfg i) := by
  unfold capacityPhase
  by_cases hp : cfg.processes = 0
  · rw [if_pos hp]
    exact (throw_keeps _).preserves SuffixStep suffixStep_refl
  · rw [if_neg hp]
    refine Preserves.bind SuffixStep (fun _ _ _ h1 h2 => suffixStep_trans h1 h2)
      ((getFieldEntry_keeps Field.state i).preserves SuffixStep suffixStep_refl) ?_
    intro e
    cases e with
    | none => exact (throw_keeps _).preserves SuffixStep suffixStep_refl
    | some st =>
      dsimp only
      by_cases hl : st.length > ceilDiv cfg.pool_size cfg.processes
      · rw [if_pos hl]
        cases cfg.window_size with
        | some w => exact dropAll_suffix w i
        | none => exact dropAll_suffix 1 i
      · rw [if_neg hl]
        exact (pure_keeps ()).preserves SuffixStep suffixStep_refl

/-- Claim C1. The claim says every operation keeps the five field sequences
of a segment at equal length. It fails on the code: appending to an already
written segment reassigns the state, action, next-state and reward entries but
raises AttributeError on the done line (the nonexistent attribute
`done_pool`), leaving the done sequence one element shorter. -/
theorem c1_second_append_breaks_field_alignment :
    ((poolOp cfg1 50 60 70 80 90 0) ex1).1.state_pool_list = [some [5, 50]] ∧
    ((poolOp cfg1 50 60 70 80 90 0) ex1).1.done_pool_list = [some [9]] ∧
    ((poolOp cfg1 50 60 70 80 90 0) ex1).2 = Except.error PErr.attributeError :=
  ⟨rfl, rfl, rfl⟩

/-- Claim C2. The claim says an append either extends all five field
sequences by one element or none. It fails on the code: on an append to a
written segment the state, action, next-state and reward entries are extended
and then the done line raises AttributeError, so exactly four of the five
fields are appended. -/
theorem c2_second_append_is_partial :
    ((poolOp cfg1 50 60 70 80 90 0) ex1).1.action_pool_list = [some [6, 60]] ∧
    ((poolOp cfg1 50 60 70 80 90 0) ex1).1.next_state_pool_list = [some [7, 70]] ∧
    ((poolOp cfg1 50 60 70 80 90 0) ex1).1.reward_pool_list = [some [8, 80]] ∧
    ((poolOp cfg1 50 60 70 80 90 0) ex1).1.done_pool_list = [some [9]] ∧
    ((poolOp cfg1 50 60 70 80 90 0) ex1).2 = Except.error PErr.attributeError :=
  ⟨rfl, rfl, rfl, rfl, rfl⟩

/-- Claim C3. The claim says construction seeds every worker index with an
unset segment entry and a zero store counter. It fails on the code: the five
pool lists and the store counter are created as empty manager lists, so the
very first append at any index raises IndexError without mutating anything. -/
theorem c3_constructor_leaves_lists_unseeded :
    (initState (a := Nat) 2).state_pool_list = [] ∧
    (initState (a := Nat) 2).store_counter = [] ∧
    ((poolOp cfg3 1 2 3 4 5 0) (initState 2)).1 = initState 2 ∧
    ((poolOp cfg3 1 2 3 4 5 0) (initState 2)).2 = Except.error PErr.indexError :=
  ⟨rfl, rfl, rfl, rfl⟩

/-- Claim C4. The claim says every append increments the store counter and a
counter multiple of `clearing_freq` triggers the drop. It fails on the code:
an append to a written segment raises AttributeError in the append block, so
the counter (here 1, one short of the clearing multiple 2) is never
incremented and the clearing drop never runs, even though the segment was
partially mutated. -/
theorem c4_clearing_unreached_on_second_append :
    ((poolOp cfg4 31 32 33 34 35 0) ex4).1.store_counter = [1] ∧
    ((poolOp cfg4 31 32 33 34 35 0) ex4).1.state_pool_list = [some [21, 31]] ∧
    ((poolOp cfg4 31 32 33 34 35 0) ex4).1.done_pool_list = [some [25]] ∧
    ((poolOp cfg4 31 32 33 34 35 0) ex4).2 = Except.error PErr.attributeError :=
  ⟨rfl, rfl, rfl, rfl⟩

/-- Claim C5. The claim describes the capacity truncation cycle (and the spec
gives the scenario: two workers, pool size 4, three appends to segment 0 end
at length 2). It fails on the code: the first append succeeds, but the second
append to the now-written segment raises AttributeError, so no run ever
reaches the capacity check with an over-capacity segment and the claimed
truncation never happens. -/
theorem c5_capacity_cycle_crashes_before_truncation :
    ((poolOp cfg5 1 1 1 1 1 0) ps0).2 = Except.ok () ∧
    ((poolOp cfg5 1 1 1 1 1 0) ps0).1.state_pool_list = [some [1], none] ∧
    ((poolOp cfg5 2 2 2 2 2 0) ((poolOp cfg5 1 1 1 1 1 0) ps0).1).2 =
      Except.error PErr.attributeError ∧
    ((poolOp cfg5 2 2 2 2 2 0) ((poolOp cfg5 1 1 1 1 1 0) ps0).1).1.state_pool_list =
      [some [1, 2], none] ∧
    ((poolOp cfg5 2 2 2 2 2 0) ((poolOp cfg5 1 1 1 1 1 0) ps0).1).1.done_pool_list =
      [some [1], none] :=
  ⟨rfl, rfl, rfl, rfl, rfl⟩

/-- Claim C8. The claim says probabilistic selection draws an index with
probability proportional to the inverse-length weights once the own segment is
written, then writes back the refreshed weight. It fails on the code: on that
path `prob` is a numpy ndarray and the call `prob.numpy()` raises
AttributeError before any draw, so only the bootstrap path (own segment unset:
claim index `p`, write weight 1) ever completes. -/
theorem c8_weighted_selection_raises :
    ((selectIndex cfg8 0) ex8).1 = ex8 ∧
    ((selectIndex cfg8 0) ex8).2 = Except.error PErr.attributeError ∧
    ((selectIndex cfg8 1) ex8b).1.inverse_len = [(1 : Rat)/2, 1] ∧
    ((selectIndex cfg8 1) ex8b).2 = Except.ok 1 :=
  ⟨rfl, rfl, rfl, rfl⟩

/-- Claim C6. Every truncation performed by the eviction policy — the
periodic clearing phase as well as the capacity phase — leaves each written
pool entry a suffix of what it was before the phase: only the oldest,
lowest-index elements are removed and the survivors keep their relative
order (the old value is the removed oldest block followed by the new value
unchanged). -/
theorem c6_evictions_remove_only_oldest (cfg : Config) (i : Nat) (ps : State a) :
    SuffixStep ps (((clearingPhase cfg i) ps).1) ∧
    SuffixStep ps (((capacityPhase cfg i) ps).1) :=
  ⟨clearingPhase_suffix cfg i ps, capacityPhase_suffix cfg i ps⟩

/-- Witness for claim C6 at a concrete configuration and state. -/
theorem c6_witness :
    SuffixStep ex4 (((clearingPhase cfg4 0) ex4).1) ∧
    SuffixStep ex4 (((capacityPhase cfg4 0) ex4).1) :=
  c6_evictions_remove_only_oldest cfg4 0 ex4

/-- Claim C7. With `random` false, the selection step of the worker driver
returns the worker index `p` itself and changes nothing, and the following
append through `pool` leaves every pool entry of every segment other than `p`
untouched: worker `p` never targets or mutates another segment. -/
theorem c7_deterministic_worker_stays_on_own_segment (cfg : Config)
    (hr : cfg.random = false) (p : Nat) (ps : State a) (s act ns r d : a) :
    (selectIndex cfg p) ps = (ps, Except.ok p) ∧
    (∀ (f : Field) (j : Nat), j ≠ p →
      (fieldList f (((poolOp cfg s act ns r d p) ps).1))[j]? =
        (fieldList f ps)[j]?) := by
  constructor
  · unfold selectIndex
    rw [hr]
    rfl
  · exact fun f j hj => (poolOp_unmoved cfg s act ns r d p ps).1 f j hj

/-- Witness for claim C7: deterministic mode at worker 1 on a fresh state. -/
theorem c7_witness :
    (selectIndex cfg5 1) ps0 = (ps0, Except.ok 1) ∧
    (∀ (f : Field) (j : Nat), j ≠ 1 →
      (fieldList f (((poolOp cfg5 3 3 3 3 3 1) ps0).1))[j]? =
        (fieldList f ps0)[j]?) :=
  c7_deterministic_worker_stays_on_own_segment cfg5 rfl 1 ps0 3 3 3 3 3

/-- Claim C10. A `pool` append call at index `i` that returns normally leaves
every pool entry of every field at every index other than `i`, and every
store counter entry other than `i`, unchanged, and does not touch the
occupancy vector at all. (The proof does not even need the normal-return
hypothesis: mutations stay on index `i` also when the call raises.) -/
theorem c10_append_touches_only_its_segment (cfg : Config) (s act ns r d : a)
    (i : Nat) (ps : State a)
    (_h : ((poolOp cfg s act ns r d i) ps).2 = Except.ok ()) :
    (∀ (f : Field) (j : Nat), j ≠ i →
        (fieldList f (((poolOp cfg s act ns r d i) ps).1))[j]? =
          (fieldList f ps)[j]?) ∧
    (∀ j : Nat, j ≠ i →
        ((poolOp cfg s act ns r d i) ps).1.store_counter[j]? =
          ps.store_counter[j]?) ∧
    ((poolOp cfg s act ns r d i) ps).1.inverse_len = ps.inverse_len :=
  poolOp_unmoved cfg s act ns r d i ps

/-- Witness for claim C10: the first append at index 0 of a fresh well-formed
two-worker state returns normally, and the frame property holds there. -/
theorem c10_witness :
    ((poolOp cfg5 7 8 9 10 11 0) ps0).2 = Except.ok () ∧
    ((∀ (f : Field) (j : Nat), j ≠ 0 →
        (fieldList f (((poolOp cfg5 7 8 9 10 11 0) ps0).1))[j]? =
          (fieldList f ps0)[j]?) ∧
     (∀ j : Nat, j ≠ 0 →
        ((poolOp cfg5 7 8 9 10 11 0) ps0).1.store_counter[j]? =
          ps0.store_counter[j]?) ∧
     ((poolOp cfg5 7 8 9 10 11 0) ps0).1.inverse_len = ps0.inverse_len) :=
  ⟨rfl, c10_append_touches_only_its_segment cfg5 7 8 9 10 11 0 ps0 rfl⟩

/-! ### Aggregation: `get_pool` -/

theorem npConcat_map_some (segs : List (List a)) (h : segs ≠ []) :
    npConcat (segs.map some) = Except.ok segs.flatten := by
  induction segs with
  | nil => exact absurd rfl h
  | cons x tl ih =>
    cases tl with
    | nil => simp [npConcat]
    | cons y tl2 =>
      have ih2 := ih (by simp)
      simp only [List.map_cons] at ih2 ⊢
      simp [npConcat, ih2]

theorem flatten_block_getq (L : List (List a)) :
    ∀ (i j : Nat) (li : List a), L[i]? = some li → j < li.length →
      L.flatten[((L.take i).map List.length).sum + j]? = li[j]? := by
  induction L with
  | nil =>
    intro i j li h hj
    simp at h
  | cons x tl ih =>
    intro i j li h hj
    cases i with
    | zero =>
      rw [List.getElem?_cons_zero] at h
      injection h with h
      subst h
      simpa using getq_append_lt x tl.flatten j hj
    | succ n =>
      rw [List.getElem?_cons_succ] at h
      have hrec := ih n j li h hj
      have hoff : ((List.take (n + 1) (x :: tl)).map List.length).sum
          = x.length + ((List.take n tl).map List.length).sum := by
        simp [List.take_succ_cons]
      rw [List.flatten_cons, hoff, Nat.add_assoc, getq_append_offset]
      exact hrec

/-- Claim C9. When every segment of every field has been written, `get_pool`
returns, for each field, the concatenation of the per-segment sequences in
worker-index order; hence each returned length is the sum of the per-segment
lengths, and the element at offset (total length of the first `i` segments)
plus `j` is element `j` of segment `i` — worker-index order first, temporal
order within a segment. -/
theorem c9_get_pool_concatenates_in_order (ps : State a)
    (sS sA sN sR sD : List (List a))
    (hS : ps.state_pool_list = sS.map some)
    (hA : ps.action_pool_list = sA.map some)
    (hN : ps.next_state_pool_list = sN.map some)
    (hR : ps.reward_pool_list = sR.map some)
    (hD : ps.done_pool_list = sD.map some)
    (h1 : sS ≠ []) (h2 : sA ≠ []) (h3 : sN ≠ []) (h4 : sR ≠ []) (h5 : sD ≠ []) :
    get_pool ps =
      Except.ok (sS.flatten, sA.flatten, sN.flatten, sR.flatten, sD.flatten) ∧
    (sS.flatten.length = (sS.map List.length).sum ∧
     sA.flatten.length = (sA.map List.length).sum ∧
     sN.flatten.length = (sN.map List.length).sum ∧
     sR.flatten.length = (sR.map List.length).sum ∧
     sD.flatten.length = (sD.map List.length).sum) ∧
    (∀ (i j : Nat) (li : List a), sS[i]? = some li → j < li.length →
       sS.flatten[((sS.take i).map List.length).sum + j]? = li[j]?) := by
  refine ⟨?_, ⟨?_, ?_, ?_, ?_, ?_⟩, flatten_block_getq sS⟩
  · unfold get_pool
    rw [hS, hA, hN, hR, hD, npConcat_map_some sS h1, npConcat_map_some sA h2,
      npConcat_map_some sN h3, npConcat_map_some sR h4, npConcat_map_some sD h5]
    rfl
  all_goals simp [List.length_flatten]

/-- The per-field segment contents of the aggregation witness state. -/
def segsW : List (List Nat) := [[1], [2, 3]]

/-- A two-worker state whose five fields all hold the segments of `segsW`. -/
def psW9 : State Nat :=
  ⟨segsW.map some, segsW.map some, segsW.map some, segsW.map some,
   segsW.map some, [0, 0], [0, 0]⟩

/-- Witness for claim C9 at a concrete two-segment state. -/
theorem c9_witness :
    get_pool psW9 =
      Except.ok (segsW.flatten, segsW.flatten, segsW.flatten, segsW.flatten,
        segsW.flatten) ∧
    (segsW.flatten.length = (segsW.map List.length).sum ∧
     segsW.flatten.length = (segsW.map List.length).sum ∧
     segsW.flatten.length = (segsW.map List.length).sum ∧
     segsW.flatten.length = (segsW.map List.length).sum ∧
     segsW.flatten.length = (segsW.map List.length).sum) ∧
    (∀ (i j : Nat) (li : List Nat), segsW[i]? = some li → j < li.length →
       segsW.flatten[((segsW.take i).map List.length).sum + j]? = li[j]?) :=
  c9_get_pool_concatenates_in_order psW9 segsW segsW segsW segsW segsW
    rfl rfl rfl rfl rfl (by simp [segsW]) (by simp [segsW]) (by simp [segsW])
    (by simp [segsW]) (by simp [segsW])

end Pool
